import Mathlib

/-!
Verification of the client-side data aggregation and geocoding-cache layer
of the JDC dashboard application (sector-partitioned ticket reader,
delta/evolution calculator, client-side filter/group engine, geocode cache
client and geocoding orchestrator), as a shallow embedding in Lean 4.

External effects (Firestore reads/writes, HTTP geocoding calls) are modelled
as explicit function arguments (`reads`, `store`, `api`, …) together with
explicit access logs where a claim is about which effects are performed.
JavaScript `number` timestamps are modelled as `Int` milliseconds; nullable
values as `Option`; rejected promises as `Except`.
-/

namespace JDC

/-! ## Sector-partitioned ticket reader (firestore.service, getRecentTicketsSdk /
getRecentTicketsForSectors / getTotalTicketCountSdk) -/

/-- The fixed sector whitelist `TICKET_SECTORS = ['CHR', 'HACCP', 'Kezia', 'Tabac']`. -/
def TICKET_SECTORS : List String := ["CHR", "HACCP", "Kezia", "Tabac"]

/-- A SAP ticket as produced by `docToSapTicket`: document id, the `date`
field (milliseconds, `none` when the stored value is neither a `Date` nor a
`Timestamp`), and the sector tag assigned from the collection queried. -/
structure SapTicket where
  id : String
  date : Option Int
  secteur : String
deriving DecidableEq, Repr

/-- The millisecond key used by the sort comparator in `getRecentTicketsSdk`:
`a.date.getTime()` for dates, `0` for any non-date value. -/
def dateMillis (d : Option Int) : Int :=
  match d with
  | some m => m
  | none => 0

/-- The comparator `(a, b) => dateB - dateA` viewed as a boolean "a before b"
relation: `a` may precede `b` iff `a.date >= b.date` (descending order). -/
def ticketBefore (a b : SapTicket) : Bool :=
  dateMillis b.date ≤ dateMillis a.date

/-- `allTickets.sort((a, b) => dateB - dateA)`: sort descending by `date`. -/
def sortTicketsDesc (l : List SapTicket) : List SapTicket :=
  l.mergeSort ticketBefore

/-- `Promise.all` over per-sector reads: succeeds with the list of per-sector
results iff every read succeeds, otherwise propagates the rejection. -/
def promiseAll (sectors : List String) (reads : String → Except Unit (List SapTicket)) :
    Except Unit (List (List SapTicket)) :=
  match sectors with
  | [] => .ok []
  | s :: rest =>
    match reads s, promiseAll rest reads with
    | .ok l, .ok ls => .ok (l :: ls)
    | .error e, _ => .error e
    | _, .error e => .error e

/-- `getRecentTicketsSdk(count, userSectors)` with the per-sector document
reads abstracted as `reads`.  Mirrors the source: filter `TICKET_SECTORS` by
`userSectors`, return `[]` if none are accessible, run all sector reads via
`Promise.all`, flatten, sort descending by date, `slice(0, count)`; the single
outer `try/catch` returns `[]` if any read rejected. -/
def getRecentTicketsSdk (count : Nat) (userSectors : List String)
    (reads : String → Except Unit (List SapTicket)) : List SapTicket :=
  let accessibleSectors := TICKET_SECTORS.filter (fun sector => userSectors.contains sector)
  if accessibleSectors.isEmpty then []
  else
    match promiseAll accessibleSectors reads with
    | .error _ => []
    | .ok results => (sortTicketsDesc results.flatten).take count

/-- `getRecentTicketsForSectors(sectors, count)`: each per-sector read has its
own `try/catch` returning `[]` for that sector, then the per-sector arrays are
flattened, sorted descending by date and truncated to `count`. -/
def getRecentTicketsForSectors (sectors : List String) (count : Nat)
    (reads : String → Except Unit (List SapTicket)) : List SapTicket :=
  if sectors.isEmpty then []
  else
    let resultsBySector := sectors.map (fun sector =>
      match reads sector with
      | .ok l => l
      | .error _ => [])
    (sortTicketsDesc resultsBySector.flatten).take count

/-- `getTotalTicketCountSdk(userSectors)` with per-sector `getCountFromServer`
abstracted as `counts`.  Returns the summed count (or `none` when any count
read rejects, via the outer `catch`), paired with the list of sectors for
which a count query was actually issued. -/
def getTotalTicketCountSdk (userSectors : List String)
    (counts : String → Except Unit Nat) : Option Nat × List String :=
  let accessibleSectors := TICKET_SECTORS.filter (fun sector => userSectors.contains sector)
  if accessibleSectors.isEmpty then (some 0, [])
  else
    match accessibleSectors.mapM (fun sector => (counts sector).toOption) with
    | some ns => (some (ns.foldl (· + ·) 0), accessibleSectors)
    | none => (none, accessibleSectors)

/-- A list is sorted descending by ticket date. -/
def SortedDesc (l : List SapTicket) : Prop :=
  l.Pairwise (fun a b => ticketBefore a b)

/-! ## Delta/Evolution calculator (Dashboard loadDashboardData) -/

/-- The fields of a daily stats snapshot read by the dashboard; each may be
missing from the stored document. -/
structure StatsSnapshot where
  ticketCount : Option Int
  shipmentCount : Option Int
  clientCount : Option Int
deriving DecidableEq, Repr

/-- The `EvolutionData` record computed by the dashboard. -/
structure EvolutionData where
  ticketCount : Option Int
  shipmentCount : Option Int
  clientCount : Option Int
deriving DecidableEq, Repr

/-- One metric of the evolution computation:
`if (live !== null && snapshotValue !== undefined) live - snapshotValue
else if (live !== null) 0` — otherwise the initial `null` is kept. -/
def evolveMetric (live snapshotValue : Option Int) : Option Int :=
  match live, snapshotValue with
  | some l, some s => some (l - s)
  | some _, none => some 0
  | none, _ => none

/-- The `calculatedEvolution` block of `loadDashboardData`: applies the metric
rule independently to ticket, shipment and client counts, reading each
baseline from the (possibly absent) latest snapshot. -/
def calculatedEvolution (liveTicketCount liveShipmentCount liveClientCount : Option Int)
    (latestSnapshot : Option StatsSnapshot) : EvolutionData :=
  ⟨evolveMetric liveTicketCount (latestSnapshot.bind StatsSnapshot.ticketCount),
   evolveMetric liveShipmentCount (latestSnapshot.bind StatsSnapshot.shipmentCount),
   evolveMetric liveClientCount (latestSnapshot.bind StatsSnapshot.clientCount)⟩

/-! ## Client-side filter/group engine (Envois CTN route, groupShipmentsByClient) -/

/-- A shipment as read from the `Envoi` collection; only the fields the
grouping engine consults are modelled.  `none` models a missing field. -/
structure Shipment where
  id : String
  nomClient : Option String
  codeClient : Option String
  secteur : Option String
deriving DecidableEq, Repr

/-- JavaScript `value || fallback` on an optional string: falsy strings are
the missing value and the empty string. -/
def jsStringOr (value : Option String) (fallback : String) : String :=
  match value with
  | some s => if s = "" then fallback else s
  | none => fallback

/-- The group key of `groupShipmentsByClient`:
`const clientName = shipment.nomClient || 'Client Inconnu'`. -/
def clientNameOf (shipment : Shipment) : String :=
  jsStringOr shipment.nomClient "Client Inconnu"

/-- One step of the grouping `Map`: `grouped.get(key)` then either push onto
the existing array or `grouped.set(key, [shipment])`, preserving key
insertion order. -/
def insertGroup : List (String × List Shipment) → String → Shipment →
    List (String × List Shipment)
  | [], key, s => [(key, [s])]
  | (k, xs) :: rest, key, s =>
    if k = key then (k, xs ++ [s]) :: rest
    else (k, xs) :: insertGroup rest key s

/-- `groupShipmentsByClient(shipments)`: fold the shipments into an
insertion-ordered map keyed by `clientNameOf`. -/
def groupShipmentsByClient (shipments : List Shipment) : List (String × List Shipment) :=
  shipments.foldl (fun grouped shipment =>
    insertGroup grouped (clientNameOf shipment) shipment) []

/-! ## Address normalizer (useGeoCoding, normalizeAddress) -/

/-- A character matched by JavaScript `\s` (and removed by `trim`):
whitespace and line terminators. -/
def isWsChar (c : Char) : Bool :=
  decide ((9 ≤ c.toNat ∧ c.toNat ≤ 13) ∨ c.toNat = 32 ∨ c.toNat = 160 ∨
    c.toNat = 0x1680 ∨ (0x2000 ≤ c.toNat ∧ c.toNat ≤ 0x200A) ∨ c.toNat = 0x2028 ∨
    c.toNat = 0x2029 ∨ c.toNat = 0x202F ∨ c.toNat = 0x205F ∨ c.toNat = 0x3000 ∨
    c.toNat = 0xFEFF)

/-- ASCII model of JavaScript `toLowerCase` on one character. -/
def toLowerChar (c : Char) : Char :=
  if 65 ≤ c.toNat ∧ c.toNat ≤ 90 then Char.ofNat (c.toNat + 32) else c

/-- The plain space character substituted for each whitespace run. -/
def spaceChar : Char := ' '

/-- `trim`: drop leading and trailing whitespace. -/
def trimChars (l : List Char) : List Char :=
  ((l.dropWhile isWsChar).reverse.dropWhile isWsChar).reverse

/-- `replace(/\s+/g, ' ')`: each maximal whitespace run becomes one space. -/
def collapseChars : List Char → List Char
  | [] => []
  | c :: rest =>
    if isWsChar c then spaceChar :: collapseChars (rest.dropWhile isWsChar)
    else c :: collapseChars rest
termination_by l => l.length
decreasing_by
  · exact Nat.lt_succ_of_le (List.dropWhile_sublist isWsChar).length_le
  · exact Nat.lt_succ_of_le (Nat.le_refl rest.length)

/-- `normalizeAddress(address) = address.trim().toLowerCase().replace(/\s+/g, ' ')`. -/
def normalizeAddress (address : String) : String :=
  String.mk (collapseChars ((trimChars address.toList).map toLowerChar))

/-! ## Geocode cache client (firestore.service, fetchGeocode / storeGeocode) -/

/-- A cached geocode entry: coordinates plus the write timestamp
(milliseconds; `none` models a value that is not a Firestore `Timestamp`). -/
structure GeocodeCacheEntry where
  latitude : Int
  longitude : Int
  timestamp : Option Int
deriving DecidableEq, Repr

/-- One access to the geocode document store. -/
inductive StoreAccess where
  | read : String → StoreAccess
  | write : String → Int → Int → StoreAccess
deriving DecidableEq, Repr

/-- `GEOCODE_CACHE_EXPIRY_DAYS = 30`. -/
def GEOCODE_CACHE_EXPIRY_DAYS : Nat := 30

/-- Milliseconds per day, used to model `setDate(getDate() + days)`. -/
def msPerDay : Int := 86400000

/-- `fetchGeocode(normalizedAddress)` with the document read abstracted as
`store` and the current time as `now`.  Returns the result together with the
list of store accesses performed.  Mirrors the source: falsy key returns
`null` immediately; a read error returns `null` (never throws); an entry
whose timestamp is older than the expiry window is treated as a miss. -/
def fetchGeocode (store : String → Except Unit (Option GeocodeCacheEntry)) (now : Int)
    (normalizedAddress : String) : Option GeocodeCacheEntry × List StoreAccess :=
  if normalizedAddress = "" then (none, [])
  else
    match store normalizedAddress with
    | .error _ => (none, [.read normalizedAddress])
    | .ok none => (none, [.read normalizedAddress])
    | .ok (some data) =>
      match data.timestamp with
      | some ts =>
        if 0 < GEOCODE_CACHE_EXPIRY_DAYS ∧ ts + (GEOCODE_CACHE_EXPIRY_DAYS : Int) * msPerDay < now
        then (none, [.read normalizedAddress])
        else (some data, [.read normalizedAddress])
      | none => (some data, [.read normalizedAddress])

/-- `storeGeocode(normalizedAddress, latitude, longitude)`: the store writes
performed — none for a falsy key, one overwrite otherwise. -/
def storeGeocode (normalizedAddress : String) (latitude longitude : Int) : List StoreAccess :=
  if normalizedAddress = "" then []
  else [.write normalizedAddress latitude longitude]

/-! ## Geocoding orchestrator (useGeoCoding) -/

/-- A latitude/longitude pair as returned to the map layer. -/
structure Coords where
  lat : Int
  lng : Int
deriving DecidableEq, Repr

/-- The outcome of one external OpenCage call: a (possibly empty) result
list, or a transport/HTTP error. -/
inductive ApiResult where
  | results : List Coords → ApiResult
  | apiError : String → ApiResult
deriving DecidableEq, Repr

/-- One address of the `geocodeBatch` promise array: check the Firestore
cache first and resolve cached coordinates immediately; only on a cache miss
call the external API with the original address.  The boolean records
whether the external API was called. -/
def geocodeOne (store : String → Except Unit (Option GeocodeCacheEntry)) (now : Int)
    (api : String → ApiResult) (addr : String) : (String × Option Coords) × Bool :=
  let normalizedAddr := normalizeAddress addr
  match (fetchGeocode store now normalizedAddr).1 with
  | some cachedData => ((normalizedAddr, some ⟨cachedData.latitude, cachedData.longitude⟩), false)
  | none =>
    match api addr with
    | .results (g :: _) => ((normalizedAddr, some g), true)
    | .results [] => ((normalizedAddr, none), true)
    | .apiError _ => ((normalizedAddr, none), true)

/-- The declared return type of the hook (`UseGeoCodingResult`): the
coordinate map, the boolean busy flag, and the aggregate error string. -/
structure UseGeoCodingResult where
  coordinates : List (String × Option Coords)
  isLoading : Bool
  error : Option String
deriving DecidableEq, Repr

/-- The value the hook actually constructs: a record whose `isLoading` field
receives the error state and which has no `error` field at all. -/
structure UseGeoCodingReturned where
  coordinates : List (String × Option Coords)
  isLoading : Option String
deriving DecidableEq, Repr

/-- The final statement of the hook,
`return { coordinates: coordinatesMap, isLoading: error }`, as a function of
the hook's three pieces of state. -/
def useGeoCodingReturn (coordinatesMap : List (String × Option Coords))
    ( isLoading : Bool) (error : Option String) : UseGeoCodingReturned :=
  ⟨coordinatesMap, error⟩

/-! ## Auxiliary predicates used by the theorem statements and proofs -/

/-- The first character, if any, is not whitespace. -/
def headNotWs (l : List Char) : Prop := ∀ c, l.head? = some c → isWsChar c = false

/-- The last character, if any, is not whitespace. -/
def lastNotWs (l : List Char) : Prop := ∀ c, l.getLast? = some c → isWsChar c = false

/-- Every whitespace character in the list is the plain space. -/
def allWsIsSpace (l : List Char) : Prop := ∀ c ∈ l, isWsChar c = true → c = spaceChar

/-- No two adjacent characters are both whitespace. -/
def noTwoAdjWs : List Char → Prop
  | a :: b :: rest => ¬ (isWsChar a = true ∧ isWsChar b = true) ∧ noTwoAdjWs (b :: rest)
  | _ => True

/-- The delta rule of the spec for one metric: live and baseline present gives
the signed difference, live present without baseline gives zero, absent live
gives the null delta. -/
def MetricRule (live snapshotValue result : Option Int) : Prop :=
  (live = none → result = none) ∧
  (∀ l, live = some l → snapshotValue = none → result = some 0) ∧
  (∀ l s, live = some l → snapshotValue = some s → result = some (l - s))

/-! # Theorems -/

/-! ## Character-level lemmas for the address normalizer -/

theorem toNat_ofNat_valid (n : Nat) (h : n < 0xd800) : (Char.ofNat n).toNat = n := by
  unfold Char.ofNat
  rw [dif_pos (Or.inl h)]
  rfl

theorem isWsChar_toLowerChar (c : Char) : isWsChar (toLowerChar c) = isWsChar c := by
  unfold toLowerChar
  by_cases h : 65 ≤ c.toNat ∧ c.toNat ≤ 90
  · rw [if_pos h]
    have h32 : (Char.ofNat (c.toNat + 32)).toNat = c.toNat + 32 :=
      toNat_ofNat_valid _ (by omega)
    unfold isWsChar
    rw [h32]
    have h1 : ¬ ((9 ≤ c.toNat + 32 ∧ c.toNat + 32 ≤ 13) ∨ c.toNat + 32 = 32 ∨
        c.toNat + 32 = 160 ∨ c.toNat + 32 = 0x1680 ∨
        (0x2000 ≤ c.toNat + 32 ∧ c.toNat + 32 ≤ 0x200A) ∨ c.toNat + 32 = 0x2028 ∨
        c.toNat + 32 = 0x2029 ∨ c.toNat + 32 = 0x202F ∨ c.toNat + 32 = 0x205F ∨
        c.toNat + 32 = 0x3000 ∨ c.toNat + 32 = 0xFEFF) := by omega
    have h2 : ¬ ((9 ≤ c.toNat ∧ c.toNat ≤ 13) ∨ c.toNat = 32 ∨ c.toNat = 160 ∨
        c.toNat = 0x1680 ∨ (0x2000 ≤ c.toNat ∧ c.toNat ≤ 0x200A) ∨ c.toNat = 0x2028 ∨
        c.toNat = 0x2029 ∨ c.toNat = 0x202F ∨ c.toNat = 0x205F ∨ c.toNat = 0x3000 ∨
        c.toNat = 0xFEFF) := by omega
    rw [decide_eq_false h1, decide_eq_false h2]
  · rw [if_neg h]

theorem toLowerChar_idem (c : Char) : toLowerChar (toLowerChar c) = toLowerChar c := by
  unfold toLowerChar
  by_cases h : 65 ≤ c.toNat ∧ c.toNat ≤ 90
  · rw [if_pos h]
    have h32 : (Char.ofNat (c.toNat + 32)).toNat = c.toNat + 32 :=
      toNat_ofNat_valid _ (by omega)
    rw [if_neg (by omega : ¬ (65 ≤ (Char.ofNat (c.toNat + 32)).toNat ∧
      (Char.ofNat (c.toNat + 32)).toNat ≤ 90))]
  · rw [if_neg h, if_neg h]

theorem toLowerChar_space : toLowerChar spaceChar = spaceChar := by decide

theorem isWsChar_space : isWsChar spaceChar = true := by decide

/-! ## Equation and structure lemmas for collapseChars -/

theorem collapseChars_nil : collapseChars [] = [] := by rw [collapseChars]

theorem collapseChars_cons_ws (c : Char) (rest : List Char) (h : isWsChar c = true) :
    collapseChars (c :: rest) = spaceChar :: collapseChars (rest.dropWhile isWsChar) := by
  rw [collapseChars, if_pos h]

theorem collapseChars_cons_not_ws (c : Char) (rest : List Char) (h : isWsChar c = false) :
    collapseChars (c :: rest) = c :: collapseChars rest := by
  rw [collapseChars, if_neg (by simp [h])]

theorem collapseChars_ne_nil (l : List Char) (h : l ≠ []) : collapseChars l ≠ [] := by
  match l with
  | [] => exact absurd rfl h
  | c :: rest =>
    by_cases hws : isWsChar c = true
    · rw [collapseChars_cons_ws c rest hws]; simp
    · rw [collapseChars_cons_not_ws c rest (by simpa using hws)]; simp

-- membership in collapse output
theorem mem_collapseChars (l : List Char) (c : Char) (h : c ∈ collapseChars l) :
    c = spaceChar ∨ c ∈ l := by
  induction l using collapseChars.induct with
  | case1 => rw [collapseChars_nil] at h; cases h
  | case2 d rest hws ih =>
    rw [collapseChars_cons_ws d rest hws] at h
    rcases List.mem_cons.mp h with h1 | h1
    · exact Or.inl h1
    · rcases ih h1 with h2 | h2
      · exact Or.inl h2
      · exact Or.inr (List.mem_cons_of_mem d ((List.dropWhile_sublist isWsChar).subset h2))
  | case3 d rest hws ih =>
    rw [collapseChars_cons_not_ws d rest (by simpa using hws)] at h
    rcases List.mem_cons.mp h with h1 | h1
    · exact Or.inr (h1 ▸ List.mem_cons_self d rest)
    · rcases ih h1 with h2 | h2
      · exact Or.inl h2
      · exact Or.inr (List.mem_cons_of_mem d h2)

-- dropWhile produces a non-ws head
theorem headNotWs_dropWhile (l : List Char) : headNotWs (l.dropWhile isWsChar) := by
  induction l with
  | nil => intro c hc; simp at hc
  | cons d rest ih =>
    by_cases h : isWsChar d = true
    · rw [List.dropWhile_cons_of_pos h]; exact ih
    · rw [List.dropWhile_cons_of_neg (by simpa using h)]
      intro c hc
      simp at hc
      subst hc
      simpa using h

theorem dropWhile_of_headNotWs (l : List Char) (h : headNotWs l) :
    l.dropWhile isWsChar = l := by
  match l with
  | [] => rfl
  | c :: rest =>
    have := h c (by simp)
    rw [List.dropWhile_cons_of_neg (by simp [this])]

-- collapse preserves a non-ws head
theorem headNotWs_collapseChars (l : List Char) (h : headNotWs l) :
    headNotWs (collapseChars l) := by
  match l with
  | [] => rw [collapseChars_nil]; exact h
  | c :: rest =>
    have hc : isWsChar c = false := h c (by simp)
    rw [collapseChars_cons_not_ws c rest hc]
    intro d hd
    simp at hd
    subst hd
    exact hc

-- suffix with equal getLast?
theorem getLast?_of_suffix (l₁ l₂ : List Char) (hs : l₁ <:+ l₂) (hne : l₁ ≠ []) :
    l₂.getLast? = l₁.getLast? := by
  rcases hs with ⟨t, rfl⟩
  rw [List.getLast?_append]
  cases hl : l₁.getLast? with
  | none => exact absurd (List.getLast?_eq_none_iff.mp hl) hne
  | some c => simp

-- collapse preserves a non-ws last
theorem lastNotWs_collapseChars (l : List Char) (h : lastNotWs l) :
    lastNotWs (collapseChars l) := by
  induction l using collapseChars.induct with
  | case1 => rw [collapseChars_nil]; exact h
  | case2 c rest hws ih =>
    rw [collapseChars_cons_ws c rest hws]
    have hrest : rest ≠ [] := by
      rintro rfl
      have := h c (by simp)
      rw [hws] at this
      cases this
    have hlast : (c :: rest).getLast? = rest.getLast? := by
      match rest, hrest with
      | d :: rest2, _ => rw [List.getLast?_cons_cons]
    have hlrest : lastNotWs rest := by
      intro d hd
      exact h d (by rw [hlast]; exact hd)
    have hdw : rest.dropWhile isWsChar ≠ [] := by
      intro hnil
      have hall := List.dropWhile_eq_nil_iff.mp hnil
      cases hlg : rest.getLast? with
      | none => exact hrest (List.getLast?_eq_none_iff.mp hlg)
      | some d =>
        have hd := hlrest d hlg
        have := hall d (List.mem_of_getLast?_eq_some hlg)
        rw [hd] at this
        cases this
    have hldw : lastNotWs (rest.dropWhile isWsChar) := by
      intro d hd
      apply hlrest d
      rw [getLast?_of_suffix _ rest (List.dropWhile_suffix isWsChar) hdw]
      exact hd
    have hcoll := ih hldw
    have hcne : collapseChars (rest.dropWhile isWsChar) ≠ [] :=
      collapseChars_ne_nil _ hdw
    intro d hd
    apply hcoll d
    match hc : collapseChars (rest.dropWhile isWsChar), hcne with
    | e :: t, _ =>
      rw [hc] at hd
      rw [List.getLast?_cons_cons] at hd
      exact hd
  | case3 c rest hws ih =>
    have hws' : isWsChar c = false := by simpa using hws
    rw [collapseChars_cons_not_ws c rest hws']
    match rest with
    | [] =>
      rw [collapseChars_nil]
      intro d hd
      simp at hd
      subst hd
      exact hws'
    | e :: rest2 =>
      have hlrest : lastNotWs (e :: rest2) := by
        intro d hd
        apply h d
        rw [List.getLast?_cons_cons]
        exact hd
      have hcoll := ih hlrest
      have hcne : collapseChars (e :: rest2) ≠ [] := collapseChars_ne_nil _ (by simp)
      intro d hd
      apply hcoll d
      match hc : collapseChars (e :: rest2), hcne with
      | f :: t, _ =>
        rw [hc] at hd
        rw [List.getLast?_cons_cons] at hd
        exact hd

-- collapse output: every whitespace char is the plain space
theorem allWsIsSpace_collapseChars (l : List Char) : allWsIsSpace (collapseChars l) := by
  induction l using collapseChars.induct with
  | case1 => rw [collapseChars_nil]; intro c hc; cases hc
  | case2 c rest hws ih =>
    rw [collapseChars_cons_ws c rest hws]
    intro d hd hdws
    rcases List.mem_cons.mp hd with h1 | h1
    · exact h1
    · exact ih d h1 hdws
  | case3 c rest hws ih =>
    rw [collapseChars_cons_not_ws c rest (by simpa using hws)]
    intro d hd hdws
    rcases List.mem_cons.mp hd with h1 | h1
    · subst h1; simp at hws; rw [hws] at hdws; cases hdws
    · exact ih d h1 hdws

theorem noTwoAdjWs_cons (c : Char) (l : List Char) (hhead : headNotWs l)
    (htail : noTwoAdjWs l) : noTwoAdjWs (c :: l) := by
  match l with
  | [] => trivial
  | d :: t =>
    refine ⟨?_, htail⟩
    rintro ⟨-, hd⟩
    have := hhead d (by simp)
    rw [this] at hd
    cases hd

-- collapse output has no two adjacent whitespace chars
theorem noTwoAdjWs_collapseChars (l : List Char) : noTwoAdjWs (collapseChars l) := by
  induction l using collapseChars.induct with
  | case1 => rw [collapseChars_nil]; trivial
  | case2 c rest hws ih =>
    rw [collapseChars_cons_ws c rest hws]
    exact noTwoAdjWs_cons _ _ (headNotWs_collapseChars _ (headNotWs_dropWhile rest)) ih
  | case3 c rest hws ih =>
    rw [collapseChars_cons_not_ws c rest (by simpa using hws)]
    match hc : collapseChars rest with
    | [] => trivial
    | d :: t =>
      refine ⟨?_, by rw [hc] at ih; exact ih⟩
      rintro ⟨h1, -⟩
      simp at hws
      rw [hws] at h1
      cases h1

-- collapse fixes canonical lists
theorem collapseChars_fix (l : List Char) (hsp : allWsIsSpace l) (hadj : noTwoAdjWs l) :
    collapseChars l = l := by
  induction l with
  | nil => exact collapseChars_nil
  | cons c rest ih =>
    by_cases hws : isWsChar c = true
    · have hc : c = spaceChar := hsp c (by simp) hws
      rw [collapseChars_cons_ws c rest hws]
      have hdrop : rest.dropWhile isWsChar = rest := by
        match rest with
        | [] => rfl
        | d :: t =>
          have hd : isWsChar d = false := by
            rcases hadj with ⟨h1, -⟩
            by_cases hdw : isWsChar d = true
            · exact absurd ⟨hws, hdw⟩ h1
            · simpa using hdw
          rw [List.dropWhile_cons_of_neg (by simp [hd])]
      rw [hdrop, hc]
      congr 1
      apply ih
      · intro d hd hdws
        exact hsp d (List.mem_cons_of_mem c hd) hdws
      · cases rest with
        | nil => trivial
        | cons d t => exact hadj.2
    · have hws' : isWsChar c = false := by simpa using hws
      rw [collapseChars_cons_not_ws c rest hws']
      congr 1
      apply ih
      · intro d hd hdws
        exact hsp d (List.mem_cons_of_mem c hd) hdws
      · cases rest with
        | nil => trivial
        | cons d t => exact hadj.2

-- trim fixes lists with non-ws ends
theorem trimChars_fix (l : List Char) (hh : headNotWs l) (hl : lastNotWs l) :
    trimChars l = l := by
  unfold trimChars
  rw [dropWhile_of_headNotWs l hh]
  have hrev : headNotWs l.reverse := by
    intro c hc
    rw [List.head?_reverse] at hc
    exact hl c hc
  rw [dropWhile_of_headNotWs l.reverse hrev, List.reverse_reverse]

-- trim output has non-ws ends
theorem headNotWs_trimChars (l : List Char) : headNotWs (trimChars l) := by
  unfold trimChars
  intro c hc
  rw [List.head?_reverse] at hc
  -- getLast? of (dropWhile ws (reverse (dropWhile ws l))) = some c
  set X := (l.dropWhile isWsChar).reverse.dropWhile isWsChar with hX
  have hXne : X ≠ [] := by
    intro hnil
    rw [hnil] at hc
    simp at hc
  have hsuf : X <:+ (l.dropWhile isWsChar).reverse := List.dropWhile_suffix isWsChar
  have := getLast?_of_suffix X (l.dropWhile isWsChar).reverse hsuf hXne
  rw [← this, List.getLast?_reverse] at hc
  exact headNotWs_dropWhile l c hc

theorem lastNotWs_trimChars (l : List Char) : lastNotWs (trimChars l) := by
  unfold trimChars
  intro c hc
  rw [List.getLast?_reverse] at hc
  exact headNotWs_dropWhile _ c hc

-- map toLowerChar preserves non-ws ends
theorem headNotWs_map_toLower (l : List Char) (h : headNotWs l) :
    headNotWs (l.map toLowerChar) := by
  intro c hc
  rw [List.head?_map] at hc
  match hh : l.head? with
  | none => rw [hh] at hc; cases hc
  | some d =>
    rw [hh] at hc
    simp at hc
    subst hc
    rw [isWsChar_toLowerChar]
    exact h d hh

theorem lastNotWs_map_toLower (l : List Char) (h : lastNotWs l) :
    lastNotWs (l.map toLowerChar) := by
  intro c hc
  rw [List.getLast?_map] at hc
  match hh : l.getLast? with
  | none => rw [hh] at hc; cases hc
  | some d =>
    rw [hh] at hc
    simp at hc
    subst hc
    rw [isWsChar_toLowerChar]
    exact h d hh

-- every char of a normalized char list is fixed by toLowerChar
theorem map_toLower_collapse_fix (l : List Char) :
    (collapseChars (l.map toLowerChar)).map toLowerChar
      = collapseChars (l.map toLowerChar) := by
  have hfix : ∀ c ∈ collapseChars (l.map toLowerChar), toLowerChar c = c := by
    intro c hc
    rcases mem_collapseChars _ c hc with h | h
    · subst h; exact toLowerChar_space
    · rcases List.mem_map.mp h with ⟨d, -, rfl⟩
      exact toLowerChar_idem d
  calc (collapseChars (l.map toLowerChar)).map toLowerChar
      = (collapseChars (l.map toLowerChar)).map id := List.map_congr_left hfix
    _ = collapseChars (l.map toLowerChar) := List.map_id _

theorem normalizeAddress_idem (s : String) :
    normalizeAddress (normalizeAddress s) = normalizeAddress s := by
  unfold normalizeAddress
  congr 1
  have h1 : (String.mk (collapseChars ((trimChars s.toList).map toLowerChar))).toList
      = collapseChars ((trimChars s.toList).map toLowerChar) := rfl
  rw [h1]
  have hh : headNotWs (collapseChars ((trimChars s.toList).map toLowerChar)) :=
    headNotWs_collapseChars _ (headNotWs_map_toLower _ (headNotWs_trimChars _))
  have hl : lastNotWs (collapseChars ((trimChars s.toList).map toLowerChar)) :=
    lastNotWs_collapseChars _ (lastNotWs_map_toLower _ (lastNotWs_trimChars _))
  rw [trimChars_fix _ hh hl, map_toLower_collapse_fix]
  exact collapseChars_fix _ (allWsIsSpace_collapseChars _) (noTwoAdjWs_collapseChars _)

/-! # Claim theorems -/

/-- C8: for every input string, normalizing twice equals normalizing once:
`normalizeAddress (normalizeAddress s) = normalizeAddress s`, where
normalization trims, lowercases, and collapses whitespace runs to single
spaces. -/
theorem normalizeAddress_idempotent (s : String) :
    normalizeAddress (normalizeAddress s) = normalizeAddress s := by
  unfold normalizeAddress
  congr 1
  have h1 : (String.mk (collapseChars ((trimChars s.toList).map toLowerChar))).toList
      = collapseChars ((trimChars s.toList).map toLowerChar) := rfl
  rw [h1]
  have hh : headNotWs (collapseChars ((trimChars s.toList).map toLowerChar)) :=
    headNotWs_collapseChars _ (headNotWs_map_toLower _ (headNotWs_trimChars _))
  have hl : lastNotWs (collapseChars ((trimChars s.toList).map toLowerChar)) :=
    lastNotWs_collapseChars _ (lastNotWs_map_toLower _ (lastNotWs_trimChars _))
  rw [trimChars_fix _ hh hl, map_toLower_collapse_fix]
  exact collapseChars_fix _ (allWsIsSpace_collapseChars _) (noTwoAdjWs_collapseChars _)

/-- The metric rule holds for one application of `evolveMetric`. -/
theorem evolveMetric_rule (live snapshotValue : Option Int) :
    MetricRule live snapshotValue (evolveMetric live snapshotValue) := by
  refine ⟨?_, ?_, ?_⟩
  · rintro rfl
    cases snapshotValue <;> rfl
  · rintro l rfl rfl
    rfl
  · rintro l v rfl rfl
    rfl

/-- C2: for each of the three metrics independently, `calculatedEvolution`
returns live minus snapshot when both are present, zero when the live count
is present but no snapshot baseline exists, and null when the live count is
absent. -/
theorem calculatedEvolution_metric_rule
    (liveTicketCount liveShipmentCount liveClientCount : Option Int)
    (latestSnapshot : Option StatsSnapshot) :
    MetricRule liveTicketCount (latestSnapshot.bind StatsSnapshot.ticketCount)
      (calculatedEvolution liveTicketCount liveShipmentCount liveClientCount
        latestSnapshot).ticketCount ∧
    MetricRule liveShipmentCount (latestSnapshot.bind StatsSnapshot.shipmentCount)
      (calculatedEvolution liveTicketCount liveShipmentCount liveClientCount
        latestSnapshot).shipmentCount ∧
    MetricRule liveClientCount (latestSnapshot.bind StatsSnapshot.clientCount)
      (calculatedEvolution liveTicketCount liveShipmentCount liveClientCount
        latestSnapshot).clientCount := by
  refine ⟨?_, ?_, ?_⟩ <;> exact evolveMetric_rule _ _

/-- Witness for C2 at the spec example: live ticket count 12 against snapshot
baseline 9 gives delta 3; live shipment count 5 with a snapshot lacking the
shipment field gives 0; absent live client count gives null. -/
theorem calculatedEvolution_metric_rule_witness :
    (calculatedEvolution (some 12) (some 5) none
      (some ⟨some 9, none, some 4⟩)).ticketCount = some 3 ∧
    (calculatedEvolution (some 12) (some 5) none
      (some ⟨some 9, none, some 4⟩)).shipmentCount = some 0 ∧
    (calculatedEvolution (some 12) (some 5) none
      (some ⟨some 9, none, some 4⟩)).clientCount = none := by
  refine ⟨?_, ?_, ?_⟩
  · have h := (calculatedEvolution_metric_rule (some 12) (some 5) none
      (some ⟨some 9, none, some 4⟩)).1.2.2 12 9 rfl rfl
    simpa using h
  · exact (calculatedEvolution_metric_rule (some 12) (some 5) none
      (some ⟨some 9, none, some 4⟩)).2.1.2.1 5 rfl rfl
  · exact (calculatedEvolution_metric_rule (some 12) (some 5) none
      (some ⟨some 9, none, some 4⟩)).2.2.1 rfl

/-- C3: the hook's declared contract (`UseGeoCodingResult`) promises a boolean
busy flag plus a separate aggregate error field, but the value actually
returned binds the error state to the `isLoading` field and has no error
field: with a lookup outstanding (`isLoading = true`) and no error, the
returned record's `isLoading` field is the null error value, and the
returned record never depends on the busy flag at all. -/
theorem useGeoCodingReturn_drops_busy_flag :
    (useGeoCodingReturn [] true none).isLoading = none ∧
    (∀ m b bAlt e, useGeoCodingReturn m b e = useGeoCodingReturn m bAlt e) :=
  ⟨rfl, fun _ _ _ _ => rfl⟩

/-- C10: for the empty (falsy) normalized address key, `fetchGeocode` returns
null immediately and `storeGeocode` returns without writing — neither
operation performs any store access. -/
theorem emptyKey_never_touches_store
    (store : String → Except Unit (Option GeocodeCacheEntry)) (now lat lng : Int) :
    fetchGeocode store now "" = (none, []) ∧ storeGeocode "" lat lng = [] := by
  constructor
  · simp [fetchGeocode]
  · simp [storeGeocode]

/-- C6: `fetchGeocode` never propagates a read error — it yields a miss — and
it yields a miss whenever the stored entry's resolution timestamp is older
than the configured expiry window. -/
theorem fetchGeocode_soft_fail_and_expiry
    (store : String → Except Unit (Option GeocodeCacheEntry)) (now : Int) (key : String)
    (entry : GeocodeCacheEntry) (ts : Int) :
    (store key = .error () → (fetchGeocode store now key).1 = none) ∧
    (store key = .ok (some entry) → entry.timestamp = some ts →
      ts + (GEOCODE_CACHE_EXPIRY_DAYS : Int) * msPerDay < now →
      (fetchGeocode store now key).1 = none) := by
  constructor
  · intro herr
    by_cases hk : key = ""
    · simp [fetchGeocode, hk]
    · simp [fetchGeocode, hk, herr]
  · intro hok hts hexp
    by_cases hk : key = ""
    · simp [fetchGeocode, hk]
    · simp [fetchGeocode, hk, hok, hts, GEOCODE_CACHE_EXPIRY_DAYS]
      rw [GEOCODE_CACHE_EXPIRY_DAYS] at hexp
      rw [if_pos (by push_cast at hexp ⊢; omega)]

/-- Witness for C6: a failing store read yields a miss, and an entry written
at epoch 0 read 31 days later (expiry window 30 days) yields a miss. -/
theorem fetchGeocode_soft_fail_and_expiry_witness :
    (fetchGeocode (fun _ => .error ()) 0 "10 rue de paris").1 = none ∧
    (fetchGeocode (fun _ => .ok (some ⟨1, 2, some 0⟩)) 2678400000 "10 rue de paris").1
      = none :=
  ⟨(fetchGeocode_soft_fail_and_expiry (fun _ => .error ()) 0 "10 rue de paris"
      ⟨1, 2, some 0⟩ 0).1 rfl,
   (fetchGeocode_soft_fail_and_expiry (fun _ => .ok (some ⟨1, 2, some 0⟩)) 2678400000
      "10 rue de paris" ⟨1, 2, some 0⟩ 0).2 rfl rfl
      (by norm_num [GEOCODE_CACHE_EXPIRY_DAYS, msPerDay])⟩

/-- C7: when the geocode cache holds a fresh entry for the normalized key, the
orchestrator resolves that address to the cached coordinates and performs no
external geocoding API call for it. -/
theorem geocodeOne_cache_hit_no_api_call
    (store : String → Except Unit (Option GeocodeCacheEntry)) (now : Int)
    (api : String → ApiResult) (addr : String) (entry : GeocodeCacheEntry)
    (hhit : (fetchGeocode store now (normalizeAddress addr)).1 = some entry) :
    geocodeOne store now api addr =
      ((normalizeAddress addr, some ⟨entry.latitude, entry.longitude⟩), false) := by
  simp [geocodeOne, hhit]

/-- Witness for C7: a cached entry for the normalized form of "1 Rue  X"
resolves to the cached coordinates with no API call, even though the API
function would fail. -/
theorem geocodeOne_cache_hit_no_api_call_witness :
    geocodeOne (fun _ => .ok (some ⟨5, 6, none⟩)) 0 (fun _ => .apiError "down") "1 Rue  X"
      = (("1 rue x", some ⟨5, 6⟩), false) := by
  have hhit : (fetchGeocode (fun _ => .ok (some (⟨5, 6, none⟩ : GeocodeCacheEntry))) 0
      (normalizeAddress "1 Rue  X")).1 = some ⟨5, 6, none⟩ := by
    have hne : ¬ normalizeAddress "1 Rue  X" = "" := by
      simp [normalizeAddress, trimChars, collapseChars, isWsChar, toLowerChar, spaceChar]
    simp [fetchGeocode, hne]
  have h := geocodeOne_cache_hit_no_api_call (fun _ => .ok (some ⟨5, 6, none⟩)) 0
    (fun _ => .apiError "down") "1 Rue  X" ⟨5, 6, none⟩ hhit
  rw [h]
  have hn : normalizeAddress "1 Rue  X" = "1 rue x" := by
    simp [normalizeAddress, trimChars, collapseChars, isWsChar, toLowerChar, spaceChar]
  rw [hn]

/-- C9: `getTotalTicketCountSdk` only ever queries sectors in the intersection
of the user's sectors with the whitelist `TICKET_SECTORS`, and when that
intersection is empty it returns 0 (not null) without issuing any count
read. -/
theorem getTotalTicketCountSdk_whitelist (userSectors : List String)
    (counts : String → Except Unit Nat) :
    ((getTotalTicketCountSdk userSectors counts).2.all
      (fun sector => TICKET_SECTORS.contains sector && userSectors.contains sector)
        = true) ∧
    (TICKET_SECTORS.filter (fun sector => userSectors.contains sector) = [] →
      getTotalTicketCountSdk userSectors counts = (some 0, [])) := by
  constructor
  · have hflt : ∀ sector ∈ TICKET_SECTORS.filter
        (fun sector => userSectors.contains sector),
        (TICKET_SECTORS.contains sector && userSectors.contains sector) = true := by
      intro sector hs
      rw [List.mem_filter] at hs
      simp only [Bool.and_eq_true]
      exact ⟨by simpa using hs.1, hs.2⟩
    unfold getTotalTicketCountSdk
    dsimp only
    split
    · rfl
    · split
      · rw [List.all_eq_true]
        exact hflt
      · rw [List.all_eq_true]
        exact hflt
  · intro hempty
    unfold getTotalTicketCountSdk
    dsimp only
    rw [hempty]
    rfl

/-- Witness for C9: a user whose only sector is outside the whitelist gets
the count 0 with no sector queried. -/
theorem getTotalTicketCountSdk_whitelist_witness :
    getTotalTicketCountSdk ["Transport"] (fun _ => .ok 7) = (some 0, []) :=
  (getTotalTicketCountSdk_whitelist ["Transport"] (fun _ => .ok 7)).2 (by decide)

/-! ## Lemmas about the grouping map -/

/-- After inserting a shipment under `key`, looking up `key` finds a group
containing it. -/
theorem lookup_insertGroup_self (m : List (String × List Shipment)) (key : String)
    (s : Shipment) :
    ∃ xs, (insertGroup m key s).lookup key = some xs ∧ s ∈ xs := by
  induction m with
  | nil =>
    refine ⟨[s], ?_, by simp⟩
    simp [insertGroup, List.lookup]
  | cons p rest ih =>
    obtain ⟨k, xs⟩ := p
    by_cases hk : k = key
    · refine ⟨xs ++ [s], ?_, by simp⟩
      simp [insertGroup, hk, List.lookup]
    · obtain ⟨ys, hy, hmem⟩ := ih
      refine ⟨ys, ?_, hmem⟩
      have hne : ¬ (key == k) = true := by
        simp only [beq_iff_eq]
        exact fun he => hk he.symm
      simp [insertGroup, hk, List.lookup, hne]
      exact hy

/-- Inserting a shipment never shrinks any existing group: every looked-up
group is preserved up to appending. -/
theorem lookup_insertGroup_mono (m : List (String × List Shipment)) (key : String)
    (t : Shipment) (k0 : String) (xs : List Shipment) (h : m.lookup k0 = some xs) :
    ∃ ys, (insertGroup m key t).lookup k0 = some ys ∧ xs ⊆ ys := by
  induction m with
  | nil => simp [List.lookup] at h
  | cons p rest ih =>
    obtain ⟨k, zs⟩ := p
    by_cases hk : k = key
    · subst hk
      by_cases hk0 : (k0 == k) = true
      · have hxs : zs = xs := by simpa [List.lookup, hk0] using h
        subst hxs
        exact ⟨zs ++ [t], by simp [insertGroup, List.lookup, hk0], by simp⟩
      · have hrest : rest.lookup k0 = some xs := by simpa [List.lookup, hk0] using h
        exact ⟨xs, by simp [insertGroup, List.lookup, hk0, hrest], List.Subset.refl xs⟩
    · by_cases hk0 : (k0 == k) = true
      · have hxs : zs = xs := by simpa [List.lookup, hk0] using h
        subst hxs
        exact ⟨zs, by simp [insertGroup, hk, List.lookup, hk0], List.Subset.refl zs⟩
      · have hrest : rest.lookup k0 = some xs := by simpa [List.lookup, hk0] using h
        obtain ⟨ys, hy, hsub⟩ := ih hrest
        exact ⟨ys, by simp [insertGroup, hk, List.lookup, hk0, hy], hsub⟩

/-- Folding the remaining shipments preserves membership of a shipment in the
group looked up by its key, and establishes it when the shipment is inserted
along the way. -/
theorem lookup_foldl_insertGroup (shipments : List Shipment)
    (acc : List (String × List Shipment)) (s : Shipment)
    (h : s ∈ shipments ∨ ∃ xs, acc.lookup (clientNameOf s) = some xs ∧ s ∈ xs) :
    ∃ xs, (shipments.foldl (fun grouped shipment =>
        insertGroup grouped (clientNameOf shipment) shipment) acc).lookup
          (clientNameOf s) = some xs ∧ s ∈ xs := by
  induction shipments generalizing acc with
  | nil =>
    rcases h with h | h
    · cases h
    · simpa using h
  | cons t rest ih =>
    rw [List.foldl_cons]
    rcases h with h | h
    · rcases List.mem_cons.mp h with rfl | hmem
      · exact ih _ (Or.inr (lookup_insertGroup_self acc (clientNameOf s) s))
      · exact ih _ (Or.inl hmem)
    · obtain ⟨xs, hx, hmem⟩ := h
      obtain ⟨ys, hy, hsub⟩ := lookup_insertGroup_mono acc (clientNameOf t) t _ xs hx
      exact ih _ (Or.inr ⟨ys, hy, hsub hmem⟩)

/-- C4 (amended): every shipment is assigned to the group whose key is its
client name when present and non-empty, otherwise the literal
'Client Inconnu' bucket; the client code is never consulted. -/
theorem groupShipmentsByClient_key (shipments : List Shipment) (s : Shipment)
    (h : s ∈ shipments) :
    ∃ xs, (groupShipmentsByClient shipments).lookup (clientNameOf s) = some xs ∧
      s ∈ xs :=
  lookup_foldl_insertGroup shipments [] s (Or.inl h)

/-- Witness for the amended C4: a named shipment lands in the group keyed by
its name. -/
theorem groupShipmentsByClient_key_witness :
    (⟨"s1", some "Acme", none, none⟩ : Shipment) ∈
        ([⟨"s1", some "Acme", none, none⟩] : List Shipment) ∧
    ∃ xs, (groupShipmentsByClient [⟨"s1", some "Acme", none, none⟩]).lookup
        (clientNameOf ⟨"s1", some "Acme", none, none⟩) = some xs ∧
      (⟨"s1", some "Acme", none, none⟩ : Shipment) ∈ xs :=
  ⟨by simp, groupShipmentsByClient_key [⟨"s1", some "Acme", none, none⟩]
    ⟨"s1", some "Acme", none, none⟩ (by simp)⟩

/-- C4 counterexample: a shipment with no client name but with client code
"ACME" is grouped under 'Client Inconnu', not under its code as the claim
states; no group keyed "ACME" exists. -/
theorem groupShipmentsByClient_ignores_code :
    (groupShipmentsByClient [⟨"s1", none, some "ACME", none⟩]).lookup "ACME" = none ∧
    (groupShipmentsByClient [⟨"s1", none, some "ACME", none⟩]).lookup "Client Inconnu"
      = some [⟨"s1", none, some "ACME", none⟩] ∧
    ("Client Inconnu" : String) ≠ "ACME" := by
  refine ⟨?_, ?_, by decide⟩ <;>
    simp [groupShipmentsByClient, insertGroup, clientNameOf, jsStringOr, List.lookup]

/-- C5 (amended): in `getRecentTicketsForSectors`, a failing sector is
equivalent to that sector succeeding with an empty result: the merged
entities of the successful sectors are still returned. -/
theorem getRecentTicketsForSectors_contains_failures (sectors : List String)
    (count : Nat) (reads readsPatched : String → Except Unit (List SapTicket))
    (h : ∀ sector, readsPatched sector = match reads sector with
      | .error _ => .ok []
      | .ok l => .ok l) :
    getRecentTicketsForSectors sectors count reads
      = getRecentTicketsForSectors sectors count readsPatched := by
  unfold getRecentTicketsForSectors
  have hmap : sectors.map (fun sector => match reads sector with
        | .ok l => l
        | .error _ => ([] : List SapTicket))
      = sectors.map (fun sector => match readsPatched sector with
        | .ok l => l
        | .error _ => ([] : List SapTicket)) := by
    apply List.map_congr_left
    intro sector _
    rw [h sector]
    cases reads sector <;> rfl
  rw [hmap]

/-- Witness for the amended C5: with sector CHR succeeding and sector HACCP
failing, the call equals the call where HACCP succeeds with no tickets. -/
theorem getRecentTicketsForSectors_contains_failures_witness :
    getRecentTicketsForSectors ["CHR", "HACCP"] 5
        (fun sector => if sector = "CHR"
          then .ok [⟨"t1", some 5, "CHR"⟩] else .error ())
      = getRecentTicketsForSectors ["CHR", "HACCP"] 5
        (fun sector => if sector = "CHR"
          then .ok [⟨"t1", some 5, "CHR"⟩] else .ok []) :=
  getRecentTicketsForSectors_contains_failures ["CHR", "HACCP"] 5 _ _
    (fun sector => by by_cases hs : sector = "CHR" <;> simp [hs])

/-- C5 counterexample: in `getRecentTicketsSdk` a single failing sector (here
HACCP) empties the whole result even though sector CHR succeeded with one
ticket, so the merged entities of the successful sectors are not returned. -/
theorem getRecentTicketsSdk_drops_successful_sectors :
    getRecentTicketsSdk 5 ["CHR", "HACCP"]
        (fun sector => if sector = "CHR"
          then .ok [⟨"t1", some 5, "CHR"⟩] else .error ()) = [] ∧
    (fun sector => if sector = "CHR"
        then (.ok [⟨"t1", some 5, "CHR"⟩] : Except Unit (List SapTicket))
        else .error ()) "CHR" = .ok [⟨"t1", some 5, "CHR"⟩] ∧
    (fun sector => if sector = "CHR"
        then (.ok [⟨"t1", some 5, "CHR"⟩] : Except Unit (List SapTicket))
        else .error ()) "HACCP" = .error () ∧
    ([] : List SapTicket) ≠ [⟨"t1", some 5, "CHR"⟩] := by
  refine ⟨?_, rfl, rfl, by decide⟩
  decide

/-- C1: for every requested count and family of per-sector results, each
sorted descending by date and of length at most the count, the merged
sequence returned by `getRecentTicketsSdk` is globally sorted descending by
date and has length at most the count. -/
theorem getRecentTicketsSdk_sorted_bounded (count : Nat) (userSectors : List String)
    (reads : String → Except Unit (List SapTicket))
    (h : ∀ sector, ∃ l, reads sector = .ok l ∧ SortedDesc l ∧ l.length ≤ count) :
    SortedDesc (getRecentTicketsSdk count userSectors reads) ∧
    (getRecentTicketsSdk count userSectors reads).length ≤ count := by
  have hsorted : ∀ l : List SapTicket, SortedDesc (sortTicketsDesc l) := by
    intro l
    unfold sortTicketsDesc SortedDesc
    apply List.sorted_mergeSort
    · intro a b c hab hbc
      simp only [ticketBefore, decide_eq_true_eq] at hab hbc ⊢
      omega
    · intro a b
      simp only [ticketBefore]
      by_cases hab : dateMillis b.date ≤ dateMillis a.date
      · simp [hab]
      · simp [hab]
        omega
  unfold getRecentTicketsSdk
  dsimp only
  split
  · exact ⟨List.Pairwise.nil, by simp⟩
  · split
    · exact ⟨List.Pairwise.nil, by simp⟩
    · constructor
      · exact List.Pairwise.sublist (List.take_sublist count _) (hsorted _)
      · exact List.length_take_le count _

/-- Witness for C1 with one accessible sector returning a single sorted
ticket and count 3. -/
theorem getRecentTicketsSdk_sorted_bounded_witness :
    SortedDesc (getRecentTicketsSdk 3 ["CHR"]
      (fun _ => .ok [⟨"a", some 10, "CHR"⟩])) ∧
    (getRecentTicketsSdk 3 ["CHR"] (fun _ => .ok [⟨"a", some 10, "CHR"⟩])).length ≤ 3 :=
  getRecentTicketsSdk_sorted_bounded 3 ["CHR"] (fun _ => .ok [⟨"a", some 10, "CHR"⟩])
    (fun _ => ⟨[⟨"a", some 10, "CHR"⟩], rfl, by simp [SortedDesc], by simp⟩)

end JDC
